import Mathlib

/-!
A shallow embedding of the yep archive engine (yoyoengine/yep, files
src/libyep.c, src/yep.c, src/yepfs.c) together with proofs about it.

Bytes are modelled as `Nat` values; multi-byte little-endian fields are
written with explicit `% 256` truncation exactly where the C code stores
them into fixed-width integers.  Files are byte lists, the filesystem is a
partial map from paths to byte lists, and the process-global reader state
of libyep.c (`yep_file_path`, `yep_file`, `file_entry_count`,
`file_version_number`) is threaded explicitly.
-/

namespace Yep

/-! ## Constants from libyep.h

The header libyep.h is not part of the sources given; the constants below
are the ones it must define.  Modelled from the spec: the entry record is
78 bytes, compression kinds are 0 = none and 1 = zlib-deflate, data kind 0
is the miscellaneous/opaque blob.  The concrete value of the format
version is immaterial to every claim (only equality with itself and
inequality with other bytes matter); any value below 256 behaves
identically, we use 1. -/

def YEP_CURRENT_FORMAT_VERSION : Nat := 1

def YEP_HEADER_SIZE_BYTES : Nat := 78

def YEP_COMPRESSION_NONE : Nat := 0

def YEP_COMPRESSION_ZLIB : Nat := 1

def YEP_DATATYPE_MISC : Nat := 0

/-! ## Byte-level helpers

`fread`/`fwrite` of little-endian fixed-width integers, and reading a byte
range of a file.  Reads past the end of a file are modelled as zero bytes;
no claim exercises that case. -/

/-- Byte of a file at an index (0 past the end). -/
def byteAt (l : List Nat) (i : Nat) : Nat := l.getD i 0

/-- `n` bytes of a file starting at `off` (an `fseek` followed by `fread`). -/
def byteRange (l : List Nat) (off n : Nat) : List Nat := (l.drop off).take n

/-- Little-endian bytes of a `uint16_t` as `fwrite` emits them. -/
def u16le (n : Nat) : List Nat := [n % 256, n / 256 % 256]

/-- Little-endian bytes of a `uint32_t` as `fwrite` emits them. -/
def u32le (n : Nat) : List Nat :=
  [n % 256, n / 256 % 256, n / 65536 % 256, n / 16777216 % 256]

/-- Read a little-endian `uint16_t` at offset `off`. -/
def rdU16 (l : List Nat) (off : Nat) : Nat :=
  byteAt l off + 256 * byteAt l (off + 1)

/-- Read a little-endian `uint32_t` at offset `off`. -/
def rdU32 (l : List Nat) (off : Nat) : Nat :=
  byteAt l off + 256 * byteAt l (off + 1) + 65536 * byteAt l (off + 2)
    + 16777216 * byteAt l (off + 3)

/-- `fseek` to `off` followed by `fwrite` of `data`: overwrites in place and
extends the file when writing at or past the end. -/
def writeBytesAt (file : List Nat) (off : Nat) (data : List Nat) : List Nat :=
  file.take off ++ List.replicate (off - file.length) 0 ++ data
    ++ file.drop (off + data.length)

/-! ## Codec adapter (compress_data / decompress_data, libyep.c:63-136)

zlib itself is the external collaborator; it is abstracted as a pair of
functions.  `inflate` returns `none` when the input is not a valid
complete deflate stream. -/

/-- The underlying compressor (zlib), as libyep.c consumes it. -/
structure Codec where
  deflate : List Nat → List Nat
  inflate : List Nat → Option (List Nat)

/-- A well-behaved compressor: decompression inverts compression, and the
compressed output fits the `input_size + input_size / 10 + 12` buffer that
`compress_data` allocates (libyep.c:76) — outside this bound the C call
fails and `write_pack_file` would read uninitialized variables. -/
def Codec.Lossless (c : Codec) : Prop :=
  ∀ x : List Nat, c.inflate (c.deflate x) = some x
    ∧ (c.deflate x).length ≤ x.length + x.length / 10 + 12

/-- compress_data (libyep.c:63): deflate the whole input in one shot. -/
def compress_data (c : Codec) (input : List Nat) : List Nat := c.deflate input

/-- The distinct exit paths of decompress_data (libyep.c:97-136): success,
the decompressor-failure diagnostic of line 123 (`Error decompressing
data`), and the size-mismatch diagnostic of line 131 (`decompressed size
does not match expected size`).  All failure paths return -1 to the
caller; the constructors record which diagnostic was emitted. -/
inductive DecompressResult where
  | ok (output : List Nat)
  | inflateError
  | sizeMismatch
deriving DecidableEq, Repr

/-- decompress_data (libyep.c:97): inflate into a buffer of exactly
`output_size` bytes.  When the true decompressed length exceeds the
buffer, `inflate(Z_FINISH)` cannot reach `Z_STREAM_END` and the call takes
the decompressor-failure path of line 120; only a shorter-than-expected
complete stream reaches the size check of line 130. -/
def decompress_data (c : Codec) (input : List Nat) (output_size : Nat) :
    DecompressResult :=
  match c.inflate input with
  | none => DecompressResult.inflateError
  | some out =>
    if output_size < out.length then DecompressResult.inflateError
    else if output_size ≠ out.length then DecompressResult.sizeMismatch
    else DecompressResult.ok out

/-! ## Staleness check (is_dir_outofdate, libyep.c:142-176)

`SDL_GetPathInfo` (wrapped by yep_get_path_info, yepfs.c:158) is the
external collaborator; it is abstracted as a partial map from paths to
path metadata. -/

/-- The SDL path types the code distinguishes. -/
inductive SDL_PathType where
  | file
  | directory
  | other
deriving DecidableEq, Repr

/-- The fields of SDL_PathInfo that the code reads. -/
structure SDL_PathInfo where
  type : SDL_PathType
  modify_time : Int
deriving DecidableEq, Repr

/-- is_dir_outofdate (libyep.c:142): fails closed when either path is
missing or of the wrong type, otherwise the directory is out of date iff
its modification time is strictly greater than the archive file's. -/
def is_dir_outofdate (pathinfo : String → Option SDL_PathInfo)
    (target_directory yep_path : String) : Bool :=
  match pathinfo target_directory with
  | none => false
  | some dir_info =>
    if dir_info.type ≠ SDL_PathType.directory then false
    else
      match pathinfo yep_path with
      | none => false
      | some yep_info =>
        if yep_info.type ≠ SDL_PathType.file then false
        else decide (dir_info.modify_time > yep_info.modify_time)

/-! ## The archive writer
(_yep_pack_directory, libyep.c:685-772 and write_pack_file, libyep.c:571-660)

A pack-list node carries its 64-byte name field and the absolute source
path; the writer's only use of the path is to read the whole file
(read_file_data, libyep.c:537), so the node is modelled with the bytes the
read yields. -/

/-- One yep_header_node, with its file's bytes in place of the path. -/
structure PackNode where
  name : List Nat
  content : List Nat
deriving DecidableEq, Repr

/-- The default node for out-of-range indexing in statements. -/
def dfltNode : PackNode := ⟨[], []⟩

/-- The 64-byte NUL-padded name field of an entry record: the node's name
buffer after `memset(0)` and `sprintf` (libyep.c:477,483).  The builder
rejects names longer than 63 bytes before any node is made; `take 63`
keeps the field width fixed for longer inputs (where the C `sprintf`
would overflow the 64-byte buffer). -/
def name64 (s : List Nat) : List Nat :=
  s.take 63 ++ List.replicate (64 - (s.take 63).length) 0

/-- An entry record as _yep_pack_directory first writes it
(libyep.c:734-762): name populated, every other field zeroed. -/
def entry_placeholder (s : List Nat) : List Nat :=
  name64 s ++ u32le 0 ++ u32le 0 ++ [0] ++ u32le 0 ++ [0]

/-- The placeholder entry table, one record per node in list order. -/
def pack_table_placeholders : List PackNode → List Nat
  | [] => []
  | nd :: rest => entry_placeholder nd.name ++ pack_table_placeholders rest

/-- The file _yep_pack_directory has written before calling
write_pack_file (libyep.c:723-762): version byte, little-endian `uint16_t`
entry count, placeholder table. -/
def pack_header_and_table (L : List PackNode) : List Nat :=
  YEP_CURRENT_FORMAT_VERSION % 256 :: u16le L.length ++ pack_table_placeholders L

/-- write_data_to_pack (libyep.c:546): write the payload at an offset. -/
def write_data_to_pack (file : List Nat) (off : Nat) (data : List Nat) : List Nat :=
  writeBytesAt file off data

/-- update_header (libyep.c:554): rewrite the 14 metadata bytes of entry
`entry_index` in place, 64 bytes past the start of its record. -/
def update_header (file : List Nat) (entry_index : Nat)
    (off size compression_type uncompressed_size data_type : Nat) : List Nat :=
  writeBytesAt file (3 + entry_index * YEP_HEADER_SIZE_BYTES + 64)
    (u32le off ++ u32le size ++ [compression_type % 256] ++ u32le uncompressed_size
      ++ [data_type % 256])

/-- The per-entry loop of write_pack_file (libyep.c:583-646): read the
source file, compress when its raw size strictly exceeds 256 bytes, write
the payload at the data cursor, backfill the entry's metadata, advance the
cursor. -/
def packLoop (c : Codec) : List PackNode → Nat → Nat → List Nat → List Nat
  | [], _, _, file => file
  | nd :: rest, current_entry, data_end, file =>
    let data_size := nd.content.length
    let uncompressed_size := data_size
    let compression_type :=
      if data_size > 256 then YEP_COMPRESSION_ZLIB else YEP_COMPRESSION_NONE
    let data :=
      if compression_type = YEP_COMPRESSION_ZLIB then compress_data c nd.content
      else nd.content
    let file1 := write_data_to_pack file data_end data
    let file2 := update_header file1 current_entry data_end data.length
      compression_type uncompressed_size YEP_DATATYPE_MISC
    packLoop c rest (current_entry + 1) (data_end + data.length) file2

/-- write_pack_file (libyep.c:571): the data region starts right after the
table, at `3 + entry_count * 78`. -/
def write_pack_file (c : Codec) (L : List PackNode) (file : List Nat) : List Nat :=
  packLoop c L 0 (3 + L.length * YEP_HEADER_SIZE_BYTES) file

/-- The bytes of the archive that `_yep_pack_directory` leaves on disk for
pack list `L` (header and placeholder table, then the payload loop). -/
def yep_pack_directory_bytes (c : Codec) (L : List PackNode) : List Nat :=
  write_pack_file c L (pack_header_and_table L)

/-! ### The flat layout of the finished archive

The writer seeks back and forth; the definitions below give the final
byte string directly, and `yep_pack_directory_eq_flat` proves the two
agree. -/

/-- The payload bytes stored for one node. -/
def storedData (c : Codec) (content : List Nat) : List Nat :=
  if content.length > 256 then compress_data c content else content

/-- The compression-kind byte stored for one node. -/
def ctypeOf (content : List Nat) : Nat :=
  if content.length > 256 then YEP_COMPRESSION_ZLIB else YEP_COMPRESSION_NONE

/-- A backfilled entry record for a node whose payload sits at `off`. -/
def filled_entry (c : Codec) (off : Nat) (nd : PackNode) : List Nat :=
  name64 nd.name ++ u32le off ++ u32le (storedData c nd.content).length
    ++ [ctypeOf nd.content] ++ u32le nd.content.length ++ [0]

/-- The backfilled entry table, offsets accumulating from `d`. -/
def flat_table (c : Codec) (d : Nat) : List PackNode → List Nat
  | [] => []
  | nd :: rest =>
    filled_entry c d nd
      ++ flat_table c (d + (storedData c nd.content).length) rest

/-- The concatenated payload region, in entry order. -/
def flat_payload (c : Codec) : List PackNode → List Nat
  | [] => []
  | nd :: rest => storedData c nd.content ++ flat_payload c rest

/-- The finished archive: header, backfilled table, payloads. -/
def flat_archive (c : Codec) (L : List PackNode) : List Nat :=
  YEP_CURRENT_FORMAT_VERSION % 256 :: u16le L.length
    ++ flat_table c (3 + L.length * YEP_HEADER_SIZE_BYTES) L ++ flat_payload c L

/-- The payload offset of entry `t` in the finished archive. -/
def entryOffset (c : Codec) (L : List PackNode) (t : Nat) : Nat :=
  3 + L.length * YEP_HEADER_SIZE_BYTES + (flat_payload c (L.take t)).length

/-! ## The archive reader (libyep.c:212-374 and 662-683)

The process-global reader state of libyep.c:21-24 is threaded
explicitly.  A `FILE *` is modelled by the bytes of the file it reads
(`none` for a NULL handle); `SysState` counts the `fopen` successes and
`fclose` calls of the reader so that handle leaks are observable. -/

/-- Reader-side OS resource accounting. -/
structure SysState where
  opened : Nat
  closed : Nat
deriving DecidableEq, Repr

/-- The globals of libyep.c:21-24. -/
structure ReaderState where
  yep_file_path : Option String
  yep_file : Option (List Nat)
  file_entry_count : Nat
  file_version_number : Nat
deriving DecidableEq, Repr

/-- The initial process state: all globals zero/NULL. -/
def initSys : SysState := ⟨0, 0⟩

/-- The initial reader globals. -/
def initReader : ReaderState := ⟨none, none, 0, 0⟩

/-- The four return sites of _yep_open_file (libyep.c:212-242): the cache
hit of line 215, the `fopen` failure of line 221, the version mismatch of
line 238 (logged as a version diagnostic), and the successful open of line
241.  The C function returns the bool `toBool`. -/
inductive OpenR where
  | cached
  | fopenError
  | versionError
  | opened
deriving DecidableEq, Repr

/-- The bool _yep_open_file actually returns at each exit. -/
def OpenR.toBool : OpenR → Bool
  | OpenR.cached => true
  | OpenR.fopenError => false
  | OpenR.versionError => false
  | OpenR.opened => true

/-- _yep_open_file (libyep.c:212): a path equal to the cached one
short-circuits; otherwise the file is opened (the previously cached
`FILE *` is overwritten without being closed), the path is recorded, one
byte of version and two bytes of entry count are read, and only then is
the version checked.  The one-byte `fread` into the `uint16_t`
`file_version_number` overwrites its low byte and keeps its high byte. -/
def _yep_open_file (fs : String → Option (List Nat)) (s : SysState)
    (st : ReaderState) (file : String) : OpenR × SysState × ReaderState :=
  if st.yep_file_path = some file then (OpenR.cached, s, st)
  else
    match fs file with
    | none => (OpenR.fopenError, s, { st with yep_file := none })
    | some bytes =>
      let s1 : SysState := { s with opened := s.opened + 1 }
      let st1 : ReaderState :=
        { yep_file_path := some file
          yep_file := some bytes
          file_entry_count := rdU16 bytes 1
          file_version_number :=
            st.file_version_number / 256 * 256 + byteAt bytes 0 }
      if st1.file_version_number ≠ YEP_CURRENT_FORMAT_VERSION then
        (OpenR.versionError, s1, st1)
      else (OpenR.opened, s1, st1)

/-- _yep_close_file (libyep.c:244): closes the handle if one is open and
zeroes the counters.  (The C frees `yep_file_path` but leaves the pointer
dangling; the freed path is modelled as cleared.) -/
def _yep_close_file (s : SysState) (st : ReaderState) : SysState × ReaderState :=
  match st.yep_file with
  | none => (s, st)
  | some _ => ({ s with closed := s.closed + 1 }, ⟨none, none, 0, 0⟩)

/-- One entry record as _yep_seek_header reads it into locals. -/
structure HeaderInfo where
  name : List Nat
  offset : Nat
  size : Nat
  compression_type : Nat
  uncompressed_size : Nat
  data_type : Nat
deriving DecidableEq, Repr

/-- The 78 bytes of the record starting at `pos`, split into fields
exactly as the freads of libyep.c:272-289 do. -/
def readHeaderAt (bytes : List Nat) (pos : Nat) : HeaderInfo :=
  { name := byteRange bytes pos 64
    offset := rdU32 bytes (pos + 64)
    size := rdU32 bytes (pos + 68)
    compression_type := byteAt bytes (pos + 72)
    uncompressed_size := rdU32 bytes (pos + 73)
    data_type := byteAt bytes (pos + 77) }

/-- The C string held in a byte buffer: everything before the first NUL
(what `strcmp` compares). -/
def cstr (l : List Nat) : List Nat := l.takeWhile (fun b => b ≠ 0)

/-- The scan loop of _yep_seek_header (libyep.c:268-295): read records in
table order and stop at the first whose name compares equal. -/
def seekLoop (bytes : List Nat) (handle : List Nat) (pos : Nat) :
    Nat → Option HeaderInfo
  | 0 => none
  | k + 1 =>
    let h := readHeaderAt bytes pos
    if cstr h.name = handle then some h
    else seekLoop bytes handle (pos + YEP_HEADER_SIZE_BYTES) k

/-- _yep_seek_header (libyep.c:260): linear scan of `count` records
starting at byte 3. -/
def _yep_seek_header (bytes : List Nat) (count : Nat) (handle : List Nat) :
    Option HeaderInfo :=
  seekLoop bytes handle 3 count

/-- yep_extract_data (libyep.c:299): open (possibly via the cache), seek
the header, read `size` payload bytes at `offset`; a NONE entry is
returned in a `size + 1`-byte buffer whose last byte is set to NUL
(libyep.c:336-341), a ZLIB entry is decompressed to `uncompressed_size`
bytes with no terminator.  Returns `none` where the C returns
`{.data = NULL, .size = 0}`.  (On the cached-NULL-handle path — reachable
only after a failed `fopen` left `yep_file_path` pointing at the old
archive — the C would fault on the NULL `FILE *`; that path yields `none`
here and no claim exercises it.  For an unknown compression kind the C
buffer also has one extra, uninitialized byte, which the model omits.) -/
def yep_extract_data (c : Codec) (fs : String → Option (List Nat))
    (s : SysState) (st : ReaderState) (file : String) (handle : List Nat) :
    Option (List Nat × Nat) × SysState × ReaderState :=
  let res := _yep_open_file fs s st file
  if res.1.toBool = false then (none, res.2.1, res.2.2)
  else
    match (res.2.2).yep_file with
    | none => (none, res.2.1, res.2.2)
    | some bytes =>
      match _yep_seek_header bytes (res.2.2).file_entry_count handle with
      | none => (none, res.2.1, res.2.2)
      | some h =>
        let data := byteRange bytes h.offset h.size
        if h.compression_type = YEP_COMPRESSION_ZLIB then
          match decompress_data c data h.uncompressed_size with
          | DecompressResult.ok out => (some (out, h.uncompressed_size), res.2.1, res.2.2)
          | _ => (none, res.2.1, res.2.2)
        else if h.compression_type = YEP_COMPRESSION_NONE then
          (some (data ++ [0], h.size), res.2.1, res.2.2)
        else (some (data, h.size), res.2.1, res.2.2)

/-- yep_item_exists (libyep.c:662): open (possibly via the cache) and
report whether the seek finds the handle. -/
def yep_item_exists (fs : String → Option (List Nat)) (s : SysState)
    (st : ReaderState) (file : String) (handle : List Nat) :
    Bool × SysState × ReaderState :=
  let res := _yep_open_file fs s st file
  if res.1.toBool = false then (false, res.2.1, res.2.2)
  else
    match (res.2.2).yep_file with
    | none => (false, res.2.1, res.2.2)
    | some bytes =>
      ((_yep_seek_header bytes (res.2.2).file_entry_count handle).isSome, res.2.1, res.2.2)

/-! ## The pack-list builder (_recurse_dir_callback, libyep.c:412-501)

`SDL_EnumerateDirectory` plus the recursion into subdirectories is the
external collaborator; it is modelled by the flattened sequence of
(dirname, fname) pairs for which the callback finds a regular file, in
the order the traversal yields them.  Path bytes use 47 for the forward
and 92 for the backward slash. -/

/-- One file yielded by the recursive enumeration. -/
structure FileVisit where
  dirname : List Nat
  fname : List Nat
deriving DecidableEq, Repr

/-- normalize_path_separators (libyep.c:401). -/
def normalize_path_separators (p : List Nat) : List Nat :=
  p.map (fun b => if b = 92 then 47 else b)

/-- The relative-name computation of the callback (libyep.c:428-466) for
an already separator-normalized full path: strip the normalized root
prefix, skip one leading separator, copy into a 256-byte buffer
(truncating to 255 bytes), normalize again, skip all remaining leading
separators.  `none` when the path does not start with the root
(libyep.c:446: logged and skipped). -/
def derive_name (root full : List Nat) : Option (List Nat) :=
  let nroot := normalize_path_separators root
  if full.take nroot.length = nroot then
    let rel0 := full.drop nroot.length
    let rel1 := if rel0.head? = some 47 ∨ rel0.head? = some 92 then rel0.tail else rel0
    let rel2 := normalize_path_separators (rel1.take 255)
    some (rel2.dropWhile (fun b => b = 47 ∨ b = 92))
  else none

/-- The events the callback logs for a skipped file. -/
inductive BuildEvent where
  | nameTooLong (full : List Nat)
  | notInRoot (full : List Nat)
deriving DecidableEq, Repr

/-- The body of _recurse_dir_callback for one regular file: derive the
relative name, reject it when it would not fit the 64-byte field with its
terminator (libyep.c:468-471), otherwise prepend a node to the pack list
(libyep.c:487-488).  The callback always returns `SDL_ENUM_CONTINUE`;
the second component records what was logged. -/
def _recurse_dir_callback (root : List Nat) (acc : List (List Nat))
    (v : FileVisit) : List (List Nat) × List BuildEvent :=
  let full := normalize_path_separators (v.dirname ++ v.fname)
  match derive_name root full with
  | none => (acc, [BuildEvent.notInRoot full])
  | some rel =>
    if rel.length + 1 > 64 then (acc, [BuildEvent.nameTooLong full])
    else (rel :: acc, [])

/-- The whole walk: fold the callback over the visit sequence, starting
from the current pack list `acc` (empty at the start of a packing run). -/
def build_pack_list (root : List Nat) : List FileVisit → List (List Nat) →
    List (List Nat) × List BuildEvent
  | [], acc => (acc, [])
  | v :: rest, acc =>
    let step := _recurse_dir_callback root acc v
    let restR := build_pack_list root rest step.1
    (restR.1, step.2 ++ restR.2)

/-- The name the walk accepts for a visit, if any. -/
def acceptedName (root : List Nat) (v : FileVisit) : Option (List Nat) :=
  match derive_name root (normalize_path_separators (v.dirname ++ v.fname)) with
  | none => none
  | some rel => if rel.length + 1 > 64 then none else some rel

/-! ## Concrete instances used by witnesses and counterexamples -/

/-- A trivially lossless codec (identity compression). -/
def idCodec : Codec := ⟨fun x => x, fun x => some x⟩

/-- A codec view of zlib inflating some fixed stream to five bytes; used
to exercise decompress_data with an expected size smaller than the true
decompressed length. -/
def fiveByteCodec : Codec := ⟨fun x => x, fun _ => some [7, 7, 7, 7, 7]⟩

/-- Two sample files, one of 2 bytes and one of 300 bytes. -/
def sampleL : List PackNode := [⟨[97], [10, 20]⟩, ⟨[98], List.replicate 300 5⟩]

/-- A filesystem holding the archive packed from the sample files. -/
def sampleFs : String → Option (List Nat) :=
  fun p => if p = "out.yep" then some (yep_pack_directory_bytes idCodec sampleL)
    else none

/-- A filesystem with two distinct well-formed archives (version byte 1,
zero entries). -/
def twoArchiveFs : String → Option (List Nat) :=
  fun p => if p = "a.yep" then some [1, 0, 0]
    else if p = "b.yep" then some [1, 0, 0] else none

/-- A filesystem with one archive whose version byte (2) does not match
the supported format version. -/
def badVersionFs : String → Option (List Nat) :=
  fun p => if p = "bad.yep" then some [2, 0, 0] else none

/-- Distinct NUL-free three-byte names, one per natural below 65536. -/
def bigName (i : Nat) : List Nat :=
  [i % 255 + 1, i / 255 % 255 + 1, i / 65025 % 255 + 1]

/-- 65536 empty files with unique short names: one file more than the
16-bit entry-count field can record. -/
def bigL : List PackNode := (List.range 65536).map (fun i => ⟨bigName i, []⟩)

/-- A filesystem holding the archive packed from those 65536 files. -/
def bigFs : String → Option (List Nat) :=
  fun p => if p = "big.yep" then some (yep_pack_directory_bytes idCodec bigL)
    else none

/-! ## Helper lemmas: bytes, writes, name fields -/

theorem length_u16le (n : Nat) : (u16le n).length = 2 := rfl

theorem length_u32le (n : Nat) : (u32le n).length = 4 := rfl

theorem byteAt_cons_succ (b : Nat) (l : List Nat) (i : Nat) :
    byteAt (b :: l) (i + 1) = byteAt l i := rfl

theorem byteAt_at_length (a : List Nat) (b : Nat) (y : List Nat) (k : Nat)
    (hk : a.length = k) : byteAt (a ++ (b :: y)) k = b := by
  subst hk
  unfold byteAt
  rw [List.getD_append_right a (b :: y) 0 a.length le_rfl, Nat.sub_self]
  rfl

theorem byteAt_append_right (a x : List Nat) (i : Nat) :
    byteAt (a ++ x) (a.length + i) = byteAt x i := by
  unfold byteAt
  rw [List.getD_append_right a x 0 (a.length + i) (Nat.le_add_right _ _),
    Nat.add_sub_cancel_left]

theorem byteAt_u32le (n : Nat) (y : List Nat) :
    byteAt (u32le n ++ y) 0 = n % 256
    ∧ byteAt (u32le n ++ y) 1 = n / 256 % 256
    ∧ byteAt (u32le n ++ y) 2 = n / 65536 % 256
    ∧ byteAt (u32le n ++ y) 3 = n / 16777216 % 256 := by
  unfold u32le byteAt
  refine ⟨rfl, rfl, rfl, rfl⟩

theorem rdU32_at_length (a : List Nat) (n : Nat) (y : List Nat) (k : Nat)
    (hk : a.length = k) : rdU32 (a ++ (u32le n ++ y)) k = n % 4294967296 := by
  subst hk
  have h0 := byteAt_append_right a (u32le n ++ y) 0
  have h1 := byteAt_append_right a (u32le n ++ y) 1
  have h2 := byteAt_append_right a (u32le n ++ y) 2
  have h3 := byteAt_append_right a (u32le n ++ y) 3
  simp only [Nat.add_zero] at h0
  unfold rdU32
  rw [h0, show a.length + 1 + 1 = a.length + 2 by omega,
    show a.length + 2 + 1 = a.length + 3 by omega, h1, h2, h3]
  rw [(byteAt_u32le n y).1, (byteAt_u32le n y).2.1, (byteAt_u32le n y).2.2.1,
    (byteAt_u32le n y).2.2.2]
  omega

theorem byteAt_u16le (n : Nat) (y : List Nat) :
    byteAt (u16le n ++ y) 0 = n % 256 ∧ byteAt (u16le n ++ y) 1 = n / 256 % 256 := by
  unfold u16le byteAt
  exact ⟨rfl, rfl⟩

theorem rdU16_at_length (a : List Nat) (n : Nat) (y : List Nat) (k : Nat)
    (hk : a.length = k) : rdU16 (a ++ (u16le n ++ y)) k = n % 65536 := by
  subst hk
  have h0 := byteAt_append_right a (u16le n ++ y) 0
  have h1 := byteAt_append_right a (u16le n ++ y) 1
  simp only [Nat.add_zero] at h0
  unfold rdU16
  rw [h0, h1, (byteAt_u16le n y).1, (byteAt_u16le n y).2]
  omega

theorem byteRange_at_length (a x y : List Nat) (k : Nat) (hk : a.length = k) :
    byteRange (a ++ (x ++ y)) k x.length = x := by
  subst hk
  unfold byteRange
  rw [List.drop_left, List.take_left]

theorem writeBytesAt_eq_append (file data : List Nat) (k : Nat)
    (hk : file.length = k) : writeBytesAt file k data = file ++ data := by
  subst hk
  unfold writeBytesAt
  simp [List.take_of_length_le le_rfl, List.drop_of_length_le (Nat.le_add_right _ _)]

theorem writeBytesAt_exact (a b c d : List Nat) (k : Nat) (hk : a.length = k)
    (hb : b.length = d.length) :
    writeBytesAt (a ++ b ++ c) k d = a ++ d ++ c := by
  subst hk
  unfold writeBytesAt
  rw [List.append_assoc a b c, List.take_left]
  have hrep : List.replicate (a.length - (a ++ (b ++ c)).length) 0 = ([] : List Nat) := by
    simp
  have hdrop : (a ++ (b ++ c)).drop (a.length + d.length) = c := by
    rw [List.drop_append d.length, ← hb, List.drop_left]
  rw [hrep, hdrop]
  simp

theorem length_name64 (s : List Nat) : (name64 s).length = 64 := by
  unfold name64
  have h : (s.take 63).length ≤ 63 := by
    simp
  rw [List.length_append, List.length_replicate]
  omega

theorem name64_eq (s : List Nat) (h : s.length ≤ 63) :
    name64 s = s ++ List.replicate (64 - s.length) 0 := by
  unfold name64
  rw [List.take_of_length_le h]

theorem cstr_append_zero (s r : List Nat) (hz : ¬ 0 ∈ s) :
    cstr (s ++ 0 :: r) = s := by
  induction s with
  | nil => simp [cstr]
  | cons a t ih =>
    have ha : a ≠ 0 := fun h => hz (h ▸ List.mem_cons_self a t)
    have ht : ¬ 0 ∈ t := fun h => hz (List.mem_cons_of_mem a h)
    have ih2 := ih ht
    simp only [cstr] at ih2 ⊢
    simp only [ne_eq, decide_not] at ih2 ⊢
    simp only [List.cons_append, List.takeWhile_cons]
    simp [ha, ih2]

theorem cstr_name64 (s : List Nat) (h : s.length ≤ 63) (hz : ¬ 0 ∈ s) :
    cstr (name64 s) = s := by
  rw [name64_eq s h]
  have h64 : 64 - s.length = (63 - s.length) + 1 := by omega
  rw [h64, List.replicate_succ]
  exact cstr_append_zero s _ hz

/-! ## The writer produces the flat layout -/

theorem length_entry_placeholder (s : List Nat) :
    (entry_placeholder s).length = 78 := by
  unfold entry_placeholder
  simp [length_name64, u32le]

theorem length_filled_entry (c : Codec) (off : Nat) (nd : PackNode) :
    (filled_entry c off nd).length = 78 := by
  unfold filled_entry
  simp [length_name64, u32le]

theorem length_pack_table_placeholders (L : List PackNode) :
    (pack_table_placeholders L).length = L.length * 78 := by
  induction L with
  | nil => rfl
  | cons nd rest ih =>
    simp [pack_table_placeholders, length_entry_placeholder, ih]
    omega

theorem length_flat_table (c : Codec) (d : Nat) (L : List PackNode) :
    (flat_table c d L).length = L.length * 78 := by
  induction L generalizing d with
  | nil => rfl
  | cons nd rest ih =>
    simp [flat_table, length_filled_entry, ih]
    omega

theorem storedData_eq (c : Codec) (content : List Nat) :
    (if (if content.length > 256 then YEP_COMPRESSION_ZLIB else YEP_COMPRESSION_NONE)
        = YEP_COMPRESSION_ZLIB then compress_data c content else content)
      = storedData c content := by
  by_cases h : content.length > 256 <;>
    simp [storedData, YEP_COMPRESSION_ZLIB, YEP_COMPRESSION_NONE, h]

theorem ctypeOf_lt (content : List Nat) : ctypeOf content < 256 := by
  by_cases h : content.length > 256 <;>
    simp [ctypeOf, YEP_COMPRESSION_ZLIB, YEP_COMPRESSION_NONE, h]

theorem packLoop_flat (c : Codec) :
    ∀ (rest : List PackNode) (A B : List Nat) (i : Nat),
      A.length = 3 + i * 78 →
      packLoop c rest i (A.length + rest.length * 78 + B.length)
          (A ++ pack_table_placeholders rest ++ B)
        = A ++ flat_table c (A.length + rest.length * 78 + B.length) rest
            ++ B ++ flat_payload c rest := by
  intro rest
  induction rest with
  | nil =>
    intro A B i hA
    simp [packLoop, pack_table_placeholders, flat_table, flat_payload]
  | cons nd rest ih =>
    intro A B i hA
    set d := A.length + (nd :: rest).length * 78 + B.length with hd
    have hfilelen : (A ++ pack_table_placeholders (nd :: rest) ++ B).length = d := by
      simp [length_pack_table_placeholders, hd]
      omega
    show packLoop c (nd :: rest) i d (A ++ pack_table_placeholders (nd :: rest) ++ B) = _
    rw [packLoop]
    rw [storedData_eq c nd.content]
    rw [show (if nd.content.length > 256 then YEP_COMPRESSION_ZLIB else YEP_COMPRESSION_NONE)
        = ctypeOf nd.content from rfl]
    rw [write_data_to_pack, writeBytesAt_eq_append _ _ _ hfilelen]
    have hsplit : A ++ pack_table_placeholders (nd :: rest) ++ B
          ++ storedData c nd.content
        = (A ++ name64 nd.name)
          ++ (u32le 0 ++ u32le 0 ++ [0] ++ u32le 0 ++ [0])
          ++ (pack_table_placeholders rest ++ B ++ storedData c nd.content) := by
      simp [pack_table_placeholders, entry_placeholder, List.append_assoc]
    rw [hsplit]
    rw [update_header]
    have hmod : ctypeOf nd.content % 256 = ctypeOf nd.content :=
      Nat.mod_eq_of_lt (ctypeOf_lt nd.content)
    have hwr := writeBytesAt_exact (A ++ name64 nd.name)
      (u32le 0 ++ u32le 0 ++ [0] ++ u32le 0 ++ [0])
      (pack_table_placeholders rest ++ B ++ storedData c nd.content)
      (u32le d ++ u32le (storedData c nd.content).length
        ++ [ctypeOf nd.content % 256] ++ u32le nd.content.length
        ++ [YEP_DATATYPE_MISC % 256])
      (3 + i * YEP_HEADER_SIZE_BYTES + 64)
      (by simp [length_name64, YEP_HEADER_SIZE_BYTES]; omega)
      (by simp [u32le])
    rw [hwr, hmod]
    have hstep : (A ++ name64 nd.name)
          ++ (u32le d ++ u32le (storedData c nd.content).length
            ++ [ctypeOf nd.content] ++ u32le nd.content.length
            ++ [YEP_DATATYPE_MISC % 256])
          ++ (pack_table_placeholders rest ++ B ++ storedData c nd.content)
        = (A ++ filled_entry c d nd) ++ pack_table_placeholders rest
          ++ (B ++ storedData c nd.content) := by
      simp [filled_entry, YEP_DATATYPE_MISC, List.append_assoc]
    rw [hstep]
    have hA2 : (A ++ filled_entry c d nd).length = 3 + (i + 1) * 78 := by
      simp [length_filled_entry]
      omega
    have hd2 : d + (storedData c nd.content).length
        = (A ++ filled_entry c d nd).length + rest.length * 78
          + (B ++ storedData c nd.content).length := by
      simp [length_filled_entry, hd]
      omega
    rw [hd2]
    rw [ih (A ++ filled_entry c d nd) (B ++ storedData c nd.content) (i + 1) hA2]
    rw [← hd2]
    simp [flat_table, flat_payload, List.append_assoc]

theorem yep_pack_directory_eq_flat (c : Codec) (L : List PackNode) :
    yep_pack_directory_bytes c L = flat_archive c L := by
  have hA : (YEP_CURRENT_FORMAT_VERSION % 256 :: u16le L.length).length = 3 + 0 * 78 := by
    simp [u16le]
  have h := packLoop_flat c L (YEP_CURRENT_FORMAT_VERSION % 256 :: u16le L.length) [] 0 hA
  simp only [List.append_nil, List.length_cons, length_u16le, List.length_nil,
    Nat.add_zero, List.cons_append] at h
  simp only [show (2 : Nat) + 1 = 3 from rfl] at h
  unfold yep_pack_directory_bytes write_pack_file pack_header_and_table flat_archive
  simp only [YEP_HEADER_SIZE_BYTES]
  exact h

/-! ## Reading the flat archive back -/

theorem flat_archive_version (c : Codec) (L : List PackNode) :
    byteAt (flat_archive c L) 0 = YEP_CURRENT_FORMAT_VERSION % 256 := rfl

theorem flat_archive_count (c : Codec) (L : List PackNode) :
    rdU16 (flat_archive c L) 1 = L.length % 65536 := by
  have e : flat_archive c L
      = [YEP_CURRENT_FORMAT_VERSION % 256]
        ++ (u16le L.length
          ++ (flat_table c (3 + L.length * YEP_HEADER_SIZE_BYTES) L ++ flat_payload c L)) := by
    simp [flat_archive, List.append_assoc]
  rw [e]
  exact rdU16_at_length _ _ _ 1 rfl

theorem readHeaderAt_entry (pre rest : List Nat) (c : Codec) (off : Nat)
    (nd : PackNode) (k : Nat) (hk : pre.length = k) :
    readHeaderAt (pre ++ filled_entry c off nd ++ rest) k =
      ⟨name64 nd.name, off % 4294967296,
        (storedData c nd.content).length % 4294967296, ctypeOf nd.content,
        nd.content.length % 4294967296, 0⟩ := by
  subst hk
  have hname : byteRange (pre ++ filled_entry c off nd ++ rest) pre.length 64
      = name64 nd.name := by
    have e : pre ++ filled_entry c off nd ++ rest
        = pre ++ (name64 nd.name
          ++ (u32le off ++ u32le (storedData c nd.content).length
            ++ [ctypeOf nd.content] ++ u32le nd.content.length ++ [0] ++ rest)) := by
      simp [filled_entry, List.append_assoc]
    rw [e, ← length_name64 nd.name]
    exact byteRange_at_length _ _ _ _ rfl
  have hoff : rdU32 (pre ++ filled_entry c off nd ++ rest) (pre.length + 64)
      = off % 4294967296 := by
    have e : pre ++ filled_entry c off nd ++ rest
        = (pre ++ name64 nd.name)
          ++ (u32le off ++ (u32le (storedData c nd.content).length
            ++ [ctypeOf nd.content] ++ u32le nd.content.length ++ [0] ++ rest)) := by
      simp [filled_entry, List.append_assoc]
    rw [e]
    exact rdU32_at_length _ _ _ _ (by simp [length_name64])
  have hsize : rdU32 (pre ++ filled_entry c off nd ++ rest) (pre.length + 68)
      = (storedData c nd.content).length % 4294967296 := by
    have e : pre ++ filled_entry c off nd ++ rest
        = (pre ++ name64 nd.name ++ u32le off)
          ++ (u32le (storedData c nd.content).length
            ++ ([ctypeOf nd.content] ++ u32le nd.content.length ++ [0] ++ rest)) := by
      simp [filled_entry, List.append_assoc]
    rw [e]
    exact rdU32_at_length _ _ _ _ (by simp [length_name64, u32le])
  have hct : byteAt (pre ++ filled_entry c off nd ++ rest) (pre.length + 72)
      = ctypeOf nd.content := by
    have e : pre ++ filled_entry c off nd ++ rest
        = (pre ++ name64 nd.name ++ u32le off
            ++ u32le (storedData c nd.content).length)
          ++ (ctypeOf nd.content :: (u32le nd.content.length ++ [0] ++ rest)) := by
      simp [filled_entry, List.append_assoc]
    rw [e]
    exact byteAt_at_length _ _ _ _ (by simp [length_name64, u32le])
  have hus : rdU32 (pre ++ filled_entry c off nd ++ rest) (pre.length + 73)
      = nd.content.length % 4294967296 := by
    have e : pre ++ filled_entry c off nd ++ rest
        = (pre ++ name64 nd.name ++ u32le off
            ++ u32le (storedData c nd.content).length ++ [ctypeOf nd.content])
          ++ (u32le nd.content.length ++ ([0] ++ rest)) := by
      simp [filled_entry, List.append_assoc]
    rw [e]
    exact rdU32_at_length _ _ _ _ (by simp [length_name64, u32le])
  have hdt : byteAt (pre ++ filled_entry c off nd ++ rest) (pre.length + 77) = 0 := by
    have e : pre ++ filled_entry c off nd ++ rest
        = (pre ++ name64 nd.name ++ u32le off
            ++ u32le (storedData c nd.content).length ++ [ctypeOf nd.content]
            ++ u32le nd.content.length)
          ++ (0 :: rest) := by
      simp [filled_entry, List.append_assoc]
    rw [e]
    exact byteAt_at_length _ _ _ _ (by simp [length_name64, u32le])
  unfold readHeaderAt
  rw [hname, hoff, hsize, hct, hus, hdt]

theorem flat_table_decomp (c : Codec) :
    ∀ (L : List PackNode) (t d : Nat), t < L.length →
      ∃ a b : List Nat,
        flat_table c d L
          = a ++ filled_entry c (d + (flat_payload c (L.take t)).length)
              (L.getD t dfltNode) ++ b
        ∧ a.length = t * 78 := by
  intro L
  induction L with
  | nil => intro t d ht; simp at ht
  | cons nd rest ih =>
    intro t d ht
    cases t with
    | zero =>
      refine ⟨[], flat_table c (d + (storedData c nd.content).length) rest, ?_, rfl⟩
      simp [flat_table, flat_payload]
    | succ t =>
      have ht2 : t < rest.length := by simpa using ht
      obtain ⟨a, b, hab, hal⟩ := ih t (d + (storedData c nd.content).length) ht2
      refine ⟨filled_entry c d nd ++ a, b, ?_, ?_⟩
      · have hoffs : d + (storedData c nd.content).length
            + (flat_payload c (rest.take t)).length
            = d + (flat_payload c ((nd :: rest).take (t + 1))).length := by
          simp [flat_payload]
          omega
        rw [flat_table, hab, hoffs]
        simp [List.append_assoc, List.getD_cons_succ]
      · simp [length_filled_entry, hal]
        omega

theorem flat_payload_decomp (c : Codec) :
    ∀ (L : List PackNode) (t : Nat), t < L.length →
      flat_payload c L
        = flat_payload c (L.take t)
          ++ storedData c (L.getD t dfltNode).content
          ++ flat_payload c (L.drop (t + 1)) := by
  intro L
  induction L with
  | nil => intro t ht; simp at ht
  | cons nd rest ih =>
    intro t ht
    cases t with
    | zero => simp [flat_payload]
    | succ t =>
      have ht2 : t < rest.length := by simpa using ht
      have h := ih t ht2
      simp only [List.take_succ_cons, List.drop_succ_cons, List.getD_cons_succ]
      rw [flat_payload, flat_payload, h]
      simp [List.append_assoc]

theorem length_flat_archive (c : Codec) (L : List PackNode) :
    (flat_archive c L).length = 3 + L.length * 78 + (flat_payload c L).length := by
  simp [flat_archive, length_flat_table, u16le]
  omega

theorem readHeaderAt_archive (c : Codec) (L : List PackNode) (t : Nat)
    (ht : t < L.length) :
    readHeaderAt (flat_archive c L) (3 + t * 78)
      = ⟨name64 (L.getD t dfltNode).name, entryOffset c L t % 4294967296,
          (storedData c (L.getD t dfltNode).content).length % 4294967296,
          ctypeOf (L.getD t dfltNode).content,
          (L.getD t dfltNode).content.length % 4294967296, 0⟩ := by
  obtain ⟨a, b, hab, hal⟩ :=
    flat_table_decomp c L t (3 + L.length * YEP_HEADER_SIZE_BYTES) ht
  have harr : flat_archive c L
      = (YEP_CURRENT_FORMAT_VERSION % 256 :: (u16le L.length ++ a))
        ++ filled_entry c (entryOffset c L t) (L.getD t dfltNode)
        ++ (b ++ flat_payload c L) := by
    rw [flat_archive, hab]
    simp [entryOffset, List.append_assoc]
  rw [harr]
  exact readHeaderAt_entry _ _ c _ _ _ (by simp [u16le, hal]; omega)

theorem byteRange_archive_payload (c : Codec) (L : List PackNode) (t : Nat)
    (ht : t < L.length) :
    byteRange (flat_archive c L) (entryOffset c L t)
        (storedData c (L.getD t dfltNode).content).length
      = storedData c (L.getD t dfltNode).content := by
  have hpay := flat_payload_decomp c L t ht
  have harr : flat_archive c L
      = ((YEP_CURRENT_FORMAT_VERSION % 256
            :: (u16le L.length ++ flat_table c (3 + L.length * YEP_HEADER_SIZE_BYTES) L))
          ++ flat_payload c (L.take t))
        ++ (storedData c (L.getD t dfltNode).content
          ++ flat_payload c (L.drop (t + 1))) := by
    rw [flat_archive, hpay]
    simp [List.append_assoc]
  rw [harr]
  exact byteRange_at_length _ _ _ _
    (by simp [u16le, length_flat_table, entryOffset, YEP_HEADER_SIZE_BYTES]; omega)

theorem entryOffset_add_le (c : Codec) (L : List PackNode) (t : Nat)
    (ht : t < L.length) :
    entryOffset c L t + (storedData c (L.getD t dfltNode).content).length
      ≤ (flat_archive c L).length := by
  have hpay := flat_payload_decomp c L t ht
  have h1 : (flat_payload c (L.take t)).length
        + (storedData c (L.getD t dfltNode).content).length
      ≤ (flat_payload c L).length := by
    rw [hpay]
    simp
  rw [length_flat_archive]
  simp only [entryOffset, YEP_HEADER_SIZE_BYTES]
  omega

/-! ## The header scan and the open path -/

theorem seekLoop_found (bytes handle : List Nat) :
    ∀ (t k pos : Nat), t < k →
      (∀ j, j < t → cstr (readHeaderAt bytes (pos + j * 78)).name ≠ handle) →
      cstr (readHeaderAt bytes (pos + t * 78)).name = handle →
      seekLoop bytes handle pos k = some (readHeaderAt bytes (pos + t * 78)) := by
  intro t
  induction t with
  | zero =>
    intro k pos hk _ hmatch
    obtain ⟨k2, rfl⟩ : ∃ k2, k = k2 + 1 := ⟨k - 1, by omega⟩
    simp only [Nat.zero_mul, Nat.add_zero] at hmatch ⊢
    rw [seekLoop]
    simp [hmatch]
  | succ t ih =>
    intro k pos hk hmiss hmatch
    obtain ⟨k2, rfl⟩ : ∃ k2, k = k2 + 1 := ⟨k - 1, by omega⟩
    have h0 : cstr (readHeaderAt bytes pos).name ≠ handle := by
      have := hmiss 0 (by omega)
      simpa using this
    rw [seekLoop]
    rw [if_neg h0]
    have e : pos + YEP_HEADER_SIZE_BYTES + t * 78 = pos + (t + 1) * 78 := by
      simp [YEP_HEADER_SIZE_BYTES]
      omega
    have hmiss2 : ∀ j, j < t →
        cstr (readHeaderAt bytes (pos + YEP_HEADER_SIZE_BYTES + j * 78)).name ≠ handle := by
      intro j hj
      have e2 : pos + YEP_HEADER_SIZE_BYTES + j * 78 = pos + (j + 1) * 78 := by
        simp [YEP_HEADER_SIZE_BYTES]
        omega
      rw [e2]
      exact hmiss (j + 1) (by omega)
    have hmatch2 : cstr (readHeaderAt bytes (pos + YEP_HEADER_SIZE_BYTES + t * 78)).name
        = handle := by
      rw [e]
      exact hmatch
    rw [ih k2 (pos + YEP_HEADER_SIZE_BYTES) (by omega) hmiss2 hmatch2, e]

theorem seek_header_archive (c : Codec) (L : List PackNode)
    (hlen : ∀ nd ∈ L, nd.name.length ≤ 63)
    (hz : ∀ nd ∈ L, ¬ 0 ∈ nd.name)
    (hnodup : (L.map PackNode.name).Nodup)
    (t : Nat) (ht : t < L.length) :
    _yep_seek_header (flat_archive c L) L.length ((L.getD t dfltNode).name)
      = some ⟨name64 (L.getD t dfltNode).name, entryOffset c L t % 4294967296,
          (storedData c (L.getD t dfltNode).content).length % 4294967296,
          ctypeOf (L.getD t dfltNode).content,
          (L.getD t dfltNode).content.length % 4294967296, 0⟩ := by
  have hmem : ∀ j, j < L.length → L.getD j dfltNode ∈ L := by
    intro j hj
    rw [List.getD_eq_getElem L dfltNode hj]
    exact List.getElem_mem hj
  have hcstr : ∀ j, j < L.length →
      cstr (readHeaderAt (flat_archive c L) (3 + j * 78)).name
        = (L.getD j dfltNode).name := by
    intro j hj
    rw [readHeaderAt_archive c L j hj]
    exact cstr_name64 _ (hlen _ (hmem j hj)) (hz _ (hmem j hj))
  have hne : ∀ j, j < t →
      cstr (readHeaderAt (flat_archive c L) (3 + j * 78)).name
        ≠ (L.getD t dfltNode).name := by
    intro j hj heq
    rw [hcstr j (by omega)] at heq
    have hjL : j < (L.map PackNode.name).length := by
      simp only [List.length_map]
      omega
    have htL : t < (L.map PackNode.name).length := by
      simp only [List.length_map]
      exact ht
    have hget : (L.map PackNode.name).get ⟨j, hjL⟩
        = (L.map PackNode.name).get ⟨t, htL⟩ := by
      simp only [List.get_eq_getElem, List.getElem_map]
      rw [← List.getD_eq_getElem L dfltNode (show j < L.length by omega),
        ← List.getD_eq_getElem L dfltNode ht]
      exact heq
    have hft := (List.Nodup.get_inj_iff hnodup).mp hget
    have : j = t := by simpa using hft
    omega
  have hfound := seekLoop_found (flat_archive c L) ((L.getD t dfltNode).name)
    t L.length 3 ht hne (hcstr t ht)
  unfold _yep_seek_header
  rw [hfound, readHeaderAt_archive c L t ht]

theorem _yep_open_file_fresh (fs : String → Option (List Nat)) (s : SysState)
    (path : String) (bytes : List Nat) (hfs : fs path = some bytes)
    (hver : byteAt bytes 0 = YEP_CURRENT_FORMAT_VERSION) :
    _yep_open_file fs s initReader path
      = (OpenR.opened, ⟨s.opened + 1, s.closed⟩,
          ⟨some path, some bytes, rdU16 bytes 1, YEP_CURRENT_FORMAT_VERSION⟩) := by
  unfold _yep_open_file initReader
  rw [if_neg (by simp)]
  rw [hfs]
  simp [hver]

theorem decompress_data_deflate (c : Codec) (hc : c.Lossless) (x : List Nat) :
    decompress_data c (compress_data c x) x.length = DecompressResult.ok x := by
  unfold decompress_data compress_data
  rw [(hc x).1]
  simp

/-- Claim C1 (amended): for every pack list with unique NUL-free names of
at most 63 bytes whose sizes fit the format's fixed-width fields (fewer
than 65536 entries, archive and entry sizes below 2^32), packing with a
lossless codec and then extracting any of the names returns a payload of
exactly the original length whose bytes are the original file content —
for entries over the compression threshold this is compression followed by
decompression restoring the exact original bytes and length. -/
theorem roundtrip_extract (c : Codec) (hc : c.Lossless) (L : List PackNode)
    (hnodup : (L.map PackNode.name).Nodup)
    (hlen : ∀ nd ∈ L, nd.name.length ≤ 63)
    (hz : ∀ nd ∈ L, ¬ 0 ∈ nd.name)
    (hcount : L.length < 65536)
    (hfit : (flat_archive c L).length < 4294967296)
    (hfit2 : ∀ nd ∈ L, nd.content.length < 4294967296)
    (path : String) (nd : PackNode) (hnd : nd ∈ L) :
    ∃ data : List Nat,
      (yep_extract_data c
          (fun p => if p = path then some (yep_pack_directory_bytes c L) else none)
          initSys initReader path nd.name).1
        = some (data, nd.content.length)
      ∧ data.take nd.content.length = nd.content := by
  obtain ⟨t, ht, hnd_eq⟩ := List.mem_iff_getElem.mp hnd
  have hgetD : L.getD t dfltNode = nd := by
    rw [List.getD_eq_getElem L dfltNode ht]
    exact hnd_eq
  subst hgetD
  set nd := L.getD t dfltNode with hnd_def
  have hfs : (fun p => if p = path then some (yep_pack_directory_bytes c L) else none) path
      = some (flat_archive c L) := by
    simp [yep_pack_directory_eq_flat]
  have hver : byteAt (flat_archive c L) 0 = YEP_CURRENT_FORMAT_VERSION := by
    rw [flat_archive_version]
    decide
  have hopen := _yep_open_file_fresh
    (fun p => if p = path then some (yep_pack_directory_bytes c L) else none)
    initSys path (flat_archive c L) hfs hver
  have hcount16 : rdU16 (flat_archive c L) 1 = L.length := by
    rw [flat_archive_count]
    exact Nat.mod_eq_of_lt hcount
  have hseek := seek_header_archive c L hlen hz hnodup t ht
  have hoff_le := entryOffset_add_le c L t ht
  rw [← hnd_def] at hoff_le hseek
  have hoff_lt : entryOffset c L t < 4294967296 := by omega
  have hslen_lt : (storedData c nd.content).length < 4294967296 := by omega
  have hulen_lt : nd.content.length < 4294967296 := hfit2 nd hnd
  have hoff_mod : entryOffset c L t % 4294967296 = entryOffset c L t :=
    Nat.mod_eq_of_lt hoff_lt
  have hslen_mod : (storedData c nd.content).length % 4294967296
      = (storedData c nd.content).length := Nat.mod_eq_of_lt hslen_lt
  have hulen_mod : nd.content.length % 4294967296 = nd.content.length :=
    Nat.mod_eq_of_lt hulen_lt
  have hpayload := byteRange_archive_payload c L t ht
  rw [← hnd_def] at hpayload
  unfold yep_extract_data
  rw [hopen]
  simp only [OpenR.toBool]
  rw [if_neg (by simp)]
  rw [hcount16, hseek]
  simp only [hoff_mod, hslen_mod, hulen_mod]
  rw [hpayload]
  by_cases hbig : nd.content.length > 256
  · have hct : ctypeOf nd.content = YEP_COMPRESSION_ZLIB := by
      simp [ctypeOf, hbig]
    have hstored : storedData c nd.content = compress_data c nd.content := by
      simp [storedData, hbig]
    rw [hct, if_pos rfl, hstored, decompress_data_deflate c hc nd.content]
    exact ⟨nd.content, rfl, List.take_length nd.content⟩
  · have hct : ctypeOf nd.content = YEP_COMPRESSION_NONE := by
      simp [ctypeOf, hbig]
    have hstored : storedData c nd.content = nd.content := by
      simp [storedData, hbig]
    rw [hct]
    rw [if_neg (by simp [YEP_COMPRESSION_NONE, YEP_COMPRESSION_ZLIB]),
      if_pos rfl, hstored]
    exact ⟨nd.content ++ [0], rfl, List.take_left nd.content [0]⟩

/-! ## Claim theorems -/

/-- Claim C7: is_dir_outofdate returns false whenever the source path is
missing or not a directory, or the archive path is missing or not a
regular file; otherwise it returns true iff the source directory's
modification time is strictly greater than the archive file's (equal
timestamps yield false). -/
theorem is_stale_spec (pathinfo : String → Option SDL_PathInfo)
    (dir file : String) :
    ((pathinfo dir = none → is_dir_outofdate pathinfo dir file = false)
    ∧ (∀ di, pathinfo dir = some di → di.type ≠ SDL_PathType.directory →
        is_dir_outofdate pathinfo dir file = false)
    ∧ (pathinfo file = none → is_dir_outofdate pathinfo dir file = false)
    ∧ (∀ yi, pathinfo file = some yi → yi.type ≠ SDL_PathType.file →
        is_dir_outofdate pathinfo dir file = false))
    ∧ (∀ di yi, pathinfo dir = some di → di.type = SDL_PathType.directory →
        pathinfo file = some yi → yi.type = SDL_PathType.file →
        (is_dir_outofdate pathinfo dir file = true
          ↔ yi.modify_time < di.modify_time)) := by
  refine ⟨⟨?_, ?_, ?_, ?_⟩, ?_⟩
  · intro h
    simp [is_dir_outofdate, h]
  · intro di hdi hty
    simp [is_dir_outofdate, hdi, hty]
  · intro h
    cases hdir : pathinfo dir with
    | none => simp [is_dir_outofdate, hdir]
    | some di =>
      by_cases hty : di.type = SDL_PathType.directory
      · simp [is_dir_outofdate, hdir, hty, h]
      · simp [is_dir_outofdate, hdir, hty]
  · intro yi hyi hty
    cases hdir : pathinfo dir with
    | none => simp [is_dir_outofdate, hdir]
    | some di =>
      by_cases hdty : di.type = SDL_PathType.directory
      · simp [is_dir_outofdate, hdir, hdty, hyi, hty]
      · simp [is_dir_outofdate, hdir, hdty]
  · intro di yi hdi hdty hyi hyty
    simp [is_dir_outofdate, hdi, hdty, hyi, hyty]

/-- Claim C7 witness: a directory newer than the archive is stale. -/
theorem is_stale_spec_witness :
    is_dir_outofdate
      (fun p => if p = "d" then some ⟨SDL_PathType.directory, 5⟩
        else if p = "f" then some ⟨SDL_PathType.file, 3⟩ else none)
      "d" "f" = true :=
  ((is_stale_spec
      (fun p => if p = "d" then some ⟨SDL_PathType.directory, 5⟩
        else if p = "f" then some ⟨SDL_PathType.file, 3⟩ else none)
      "d" "f").2 ⟨SDL_PathType.directory, 5⟩ ⟨SDL_PathType.file, 3⟩
      (by decide) rfl (by decide) rfl).mpr (by decide)

/-- Claim C3: opening a second, different archive while one is cached does
NOT release the first handle: after two successful opens of distinct
paths, two reader handles have been acquired and none closed — the cached
`FILE *` of the first archive is overwritten and leaked, contradicting
the claim that at most one reader handle is ever open. -/
theorem open_leaks_previous_handle :
    ((_yep_open_file twoArchiveFs initSys initReader "a.yep").1.toBool = true)
    ∧ ((_yep_open_file twoArchiveFs
          (_yep_open_file twoArchiveFs initSys initReader "a.yep").2.1
          (_yep_open_file twoArchiveFs initSys initReader "a.yep").2.2
          "b.yep").1.toBool = true)
    ∧ (_yep_open_file twoArchiveFs
          (_yep_open_file twoArchiveFs initSys initReader "a.yep").2.1
          (_yep_open_file twoArchiveFs initSys initReader "a.yep").2.2
          "b.yep").2.1.opened = 2
    ∧ (_yep_open_file twoArchiveFs
          (_yep_open_file twoArchiveFs initSys initReader "a.yep").2.1
          (_yep_open_file twoArchiveFs initSys initReader "a.yep").2.2
          "b.yep").2.1.closed = 0 := by
  decide

/-- Claim C6 (amended): a first open of a version-mismatched archive
(path not currently cached) fails through the version-diagnostic exit,
which is distinct from the `fopen`-failure exit — but the failed open
leaves the path cached, so a second open of the same path returns
success. -/
theorem version_gate (fs : String → Option (List Nat)) (s : SysState)
    (st : ReaderState) (file : String) (bytes : List Nat)
    (hmiss : ¬ st.yep_file_path = some file)
    (hfs : fs file = some bytes)
    (hvn : st.file_version_number < 256)
    (hbad : byteAt bytes 0 ≠ YEP_CURRENT_FORMAT_VERSION) :
    ((_yep_open_file fs s st file).1 = OpenR.versionError
    ∧ (_yep_open_file fs s st file).1.toBool = false
    ∧ (_yep_open_file fs s st file).1 ≠ OpenR.fopenError)
    ∧ (_yep_open_file fs ((_yep_open_file fs s st file).2.1)
        ((_yep_open_file fs s st file).2.2) file).1.toBool = true := by
  have hdiv : st.file_version_number / 256 = 0 := Nat.div_eq_of_lt hvn
  have hopen : _yep_open_file fs s st file
      = (OpenR.versionError, ⟨s.opened + 1, s.closed⟩,
          ⟨some file, some bytes, rdU16 bytes 1, byteAt bytes 0⟩) := by
    unfold _yep_open_file
    rw [if_neg hmiss, hfs]
    simp [hdiv, hbad]
  rw [hopen]
  refine ⟨⟨rfl, rfl, by simp⟩, ?_⟩
  unfold _yep_open_file
  rw [if_pos rfl]
  rfl

/-- Claim C6 witness: the amended behavior at a concrete mismatched
archive. -/
theorem version_gate_witness :
    (_yep_open_file badVersionFs initSys initReader "bad.yep").1
      = OpenR.versionError :=
  (version_gate badVersionFs initSys initReader "bad.yep" [2, 0, 0]
    (by decide) (by decide) (by decide) (by decide)).1.1

/-- Claim C6 counterexample: the claim that no version-mismatched archive
is ever successfully opened is false — the second open of the same
mismatched archive returns success off the poisoned cache. -/
theorem version_gate_counterexample :
    (_yep_open_file badVersionFs initSys initReader "bad.yep").1.toBool = false
    ∧ (_yep_open_file badVersionFs
        (_yep_open_file badVersionFs initSys initReader "bad.yep").2.1
        (_yep_open_file badVersionFs initSys initReader "bad.yep").2.2
        "bad.yep").1.toBool = true := by
  decide

/-- Claim C9: a failed version-mismatched open still records the path,
the open file and the entry count in the single-entry cache; every later
open of the same path short-circuits to success with the state unchanged,
and yep_item_exists then scans the mismatched archive's table without any
re-validation of the header. -/
theorem failed_open_poisons_cache (fs : String → Option (List Nat))
    (s : SysState) (file : String) (bytes : List Nat)
    (hfs : fs file = some bytes)
    (hbad : byteAt bytes 0 ≠ YEP_CURRENT_FORMAT_VERSION) :
    ((_yep_open_file fs s initReader file).1.toBool = false)
    ∧ (_yep_open_file fs s initReader file).2.2.yep_file_path = some file
    ∧ (_yep_open_file fs s initReader file).2.2.file_entry_count = rdU16 bytes 1
    ∧ (_yep_open_file fs s initReader file).2.2.yep_file = some bytes
    ∧ _yep_open_file fs (_yep_open_file fs s initReader file).2.1
        (_yep_open_file fs s initReader file).2.2 file
      = (OpenR.cached, (_yep_open_file fs s initReader file).2.1,
          (_yep_open_file fs s initReader file).2.2)
    ∧ (∀ handle, (yep_item_exists fs (_yep_open_file fs s initReader file).2.1
          (_yep_open_file fs s initReader file).2.2 file handle).1
        = (_yep_seek_header bytes (rdU16 bytes 1) handle).isSome) := by
  have hopen : _yep_open_file fs s initReader file
      = (OpenR.versionError, ⟨s.opened + 1, s.closed⟩,
          ⟨some file, some bytes, rdU16 bytes 1, byteAt bytes 0⟩) := by
    unfold _yep_open_file initReader
    rw [if_neg (by simp), hfs]
    simp [hbad]
  rw [hopen]
  have hcached : _yep_open_file fs (⟨s.opened + 1, s.closed⟩ : SysState)
      (⟨some file, some bytes, rdU16 bytes 1, byteAt bytes 0⟩ : ReaderState) file
      = (OpenR.cached, ⟨s.opened + 1, s.closed⟩,
          ⟨some file, some bytes, rdU16 bytes 1, byteAt bytes 0⟩) := by
    unfold _yep_open_file
    rw [if_pos rfl]
  refine ⟨rfl, rfl, rfl, rfl, hcached, ?_⟩
  intro handle
  unfold yep_item_exists
  rw [hcached]
  rfl

/-- Claim C9 witness: the poisoned cache at a concrete mismatched
archive. -/
theorem failed_open_poisons_cache_witness :
    (_yep_open_file badVersionFs initSys initReader "bad.yep").2.2.yep_file_path
      = some "bad.yep" :=
  (failed_open_poisons_cache badVersionFs initSys "bad.yep" [2, 0, 0]
    (by decide) (by decide)).2.1

theorem decompress_data_ok (c : Codec) (input : List Nat) (n : Nat)
    (out : List Nat) (h : decompress_data c input n = DecompressResult.ok out) :
    c.inflate input = some out ∧ out.length = n := by
  unfold decompress_data at h
  split at h
  · exact absurd h (by simp)
  · rename_i o hinf
    split at h
    · exact absurd h (by simp)
    · split at h
      · exact absurd h (by simp)
      · rename_i h1 h2
        simp only [DecompressResult.ok.injEq] at h
        subst h
        exact ⟨hinf, by omega⟩

/-- Claim C8 (amended): decompress_data succeeds only when the
decompressor yields exactly the expected number of bytes.  A complete
stream SHORTER than expected takes the size-mismatch exit, distinct from
the decompressor-failure exit; a stream LONGER than expected exhausts the
fixed output buffer inside the decompressor and surfaces through the
decompressor-failure exit instead.  Extraction of a deflate entry whose
decompression does not succeed returns the null result, never truncated
or padded bytes. -/
theorem decompress_size_paths (c : Codec) (input : List Nat) (n : Nat) :
    (∀ out, decompress_data c input n = DecompressResult.ok out →
      c.inflate input = some out ∧ out.length = n)
    ∧ (∀ out, c.inflate input = some out → out.length < n →
      decompress_data c input n = DecompressResult.sizeMismatch)
    ∧ (∀ out, c.inflate input = some out → n < out.length →
      decompress_data c input n = DecompressResult.inflateError)
    ∧ (c.inflate input = none →
      decompress_data c input n = DecompressResult.inflateError)
    ∧ (∀ (fs : String → Option (List Nat)) (file : String)
         (bytes handle : List Nat) (h : HeaderInfo),
        fs file = some bytes → byteAt bytes 0 = YEP_CURRENT_FORMAT_VERSION →
        _yep_seek_header bytes (rdU16 bytes 1) handle = some h →
        h.compression_type = YEP_COMPRESSION_ZLIB →
        byteRange bytes h.offset h.size = input → h.uncompressed_size = n →
        (∀ out, decompress_data c input n ≠ DecompressResult.ok out) →
        (yep_extract_data c fs initSys initReader file handle).1 = none) := by
  refine ⟨decompress_data_ok c input n, ?_, ?_, ?_, ?_⟩
  · intro out hinf hlt
    unfold decompress_data
    rw [hinf]
    show (if n < out.length then DecompressResult.inflateError
      else if n ≠ out.length then DecompressResult.sizeMismatch
      else DecompressResult.ok out) = DecompressResult.sizeMismatch
    rw [if_neg (by omega), if_pos (by omega)]
  · intro out hinf hgt
    unfold decompress_data
    rw [hinf]
    show (if n < out.length then DecompressResult.inflateError
      else if n ≠ out.length then DecompressResult.sizeMismatch
      else DecompressResult.ok out) = DecompressResult.inflateError
    rw [if_pos hgt]
  · intro hinf
    unfold decompress_data
    rw [hinf]
  · intro fs file bytes handle h hfs hver hseek hct hdata hn hne
    have hopen := _yep_open_file_fresh fs initSys file bytes hfs hver
    unfold yep_extract_data
    rw [hopen]
    simp only [OpenR.toBool]
    rw [if_neg (by simp)]
    rw [hseek]
    simp only []
    rw [if_pos hct, hdata, hn]
    cases hres : decompress_data c input n with
    | ok out => exact absurd hres (hne out)
    | inflateError => rfl
    | sizeMismatch => rfl

/-- Claim C8 witness: a complete stream of 5 bytes against an expected
size of 7 takes the size-mismatch exit. -/
theorem decompress_size_paths_witness :
    decompress_data fiveByteCodec [1] 7 = DecompressResult.sizeMismatch :=
  (decompress_size_paths fiveByteCodec [1] 7).2.1 [7, 7, 7, 7, 7] rfl (by decide)

/-- Claim C8 counterexample: the claim that any length mismatch surfaces
as the data-integrity (size-mismatch) diagnostic is false — a stream
whose actual decompressed length (5) exceeds the expected size (3) fails
through the decompressor-failure exit instead. -/
theorem decompress_size_paths_counterexample :
    fiveByteCodec.inflate [1] = some [7, 7, 7, 7, 7]
    ∧ ([7, 7, 7, 7, 7] : List Nat).length ≠ 3
    ∧ decompress_data fiveByteCodec [1] 3 = DecompressResult.inflateError
    ∧ DecompressResult.inflateError ≠ DecompressResult.sizeMismatch := by
  refine ⟨rfl, by decide, by decide, by decide⟩

theorem recurse_callback_cases (root : List Nat) (acc : List (List Nat))
    (v : FileVisit) :
    (derive_name root (normalize_path_separators (v.dirname ++ v.fname)) = none
      ∧ _recurse_dir_callback root acc v = (acc,
          [BuildEvent.notInRoot (normalize_path_separators (v.dirname ++ v.fname))]))
    ∨ (∃ rel, derive_name root (normalize_path_separators (v.dirname ++ v.fname))
          = some rel
        ∧ rel.length + 1 > 64
        ∧ _recurse_dir_callback root acc v = (acc,
            [BuildEvent.nameTooLong (normalize_path_separators (v.dirname ++ v.fname))]))
    ∨ (∃ rel, derive_name root (normalize_path_separators (v.dirname ++ v.fname))
          = some rel
        ∧ ¬ rel.length + 1 > 64
        ∧ _recurse_dir_callback root acc v = (rel :: acc, [])) := by
  unfold _recurse_dir_callback
  simp only []
  cases hd : derive_name root (normalize_path_separators (v.dirname ++ v.fname)) with
  | none => exact Or.inl ⟨rfl, rfl⟩
  | some rel =>
    by_cases hl : rel.length + 1 > 64
    · exact Or.inr (Or.inl ⟨rel, rfl, hl, by simp only []; rw [if_pos hl]⟩)
    · exact Or.inr (Or.inr ⟨rel, rfl, hl, by simp only []; rw [if_neg hl]⟩)

theorem build_pack_list_cons (root : List Nat) (v : FileVisit)
    (rest : List FileVisit) (acc : List (List Nat)) :
    build_pack_list root (v :: rest) acc
      = ((build_pack_list root rest (_recurse_dir_callback root acc v).1).1,
          (_recurse_dir_callback root acc v).2
            ++ (build_pack_list root rest (_recurse_dir_callback root acc v).1).2) := by
  rw [build_pack_list]

theorem mem_build_pack_list_acc (root : List Nat) :
    ∀ (visits : List FileVisit) (acc : List (List Nat)) (x : List Nat),
      x ∈ acc → x ∈ (build_pack_list root visits acc).1 := by
  intro visits
  induction visits with
  | nil => intro acc x hx; exact hx
  | cons v rest ih =>
    intro acc x hx
    rw [build_pack_list_cons]
    apply ih
    rcases recurse_callback_cases root acc v with ⟨_, hcb⟩ | ⟨rel, _, _, hcb⟩ | ⟨rel, _, _, hcb⟩
    · rw [hcb]
      exact hx
    · rw [hcb]
      exact hx
    · rw [hcb]
      exact List.mem_cons_of_mem rel hx

/-- Claim C2 (amended): the pack-list builder PREPENDS each accepted file,
so the entry table lists entries in the REVERSE of the order the
recursive enumeration yields them; lookup takes the first match of the
linear table scan, which for a duplicated name is therefore the file
encountered LAST during traversal. -/
theorem pack_list_reverse_order :
    (∀ (root : List Nat) (visits : List FileVisit) (acc : List (List Nat)),
      (build_pack_list root visits acc).1
        = (visits.filterMap (acceptedName root)).reverse ++ acc)
    ∧ (∀ (bytes handle : List Nat) (pos k t : Nat), t < k →
        (∀ j, j < t → cstr (readHeaderAt bytes (pos + j * 78)).name ≠ handle) →
        cstr (readHeaderAt bytes (pos + t * 78)).name = handle →
        seekLoop bytes handle pos k
          = some (readHeaderAt bytes (pos + t * 78))) := by
  constructor
  · intro root visits
    induction visits with
    | nil => intro acc; simp [build_pack_list]
    | cons v rest ih =>
      intro acc
      rw [build_pack_list_cons]
      rcases recurse_callback_cases root acc v with ⟨hd, hcb⟩ | ⟨rel, hd, hl, hcb⟩ | ⟨rel, hd, hl, hcb⟩
      · have hacc : acceptedName root v = none := by
          unfold acceptedName
          rw [hd]
        rw [hcb]
        simp only [List.filterMap_cons, hacc]
        exact ih acc
      · have hacc : acceptedName root v = none := by
          unfold acceptedName
          rw [hd]
          simp only []
          rw [if_pos hl]
        rw [hcb]
        simp only [List.filterMap_cons, hacc]
        exact ih acc
      · have hacc : acceptedName root v = some rel := by
          unfold acceptedName
          rw [hd]
          simp only []
          rw [if_neg hl]
        rw [hcb]
        simp only [List.filterMap_cons, hacc]
        rw [ih (rel :: acc)]
        simp [List.append_assoc]
  · intro bytes handle pos k t hk hmiss hmatch
    exact seekLoop_found bytes handle t k pos hk hmiss hmatch

/-- Claim C2 witness: the amended order on a concrete two-file walk, and
the first-match scan on the concrete sample archive. -/
theorem pack_list_reverse_order_witness :
    (build_pack_list [114, 47] [⟨[114, 47], [97]⟩, ⟨[114, 47], [98]⟩] []).1
      = (([⟨[114, 47], [97]⟩, ⟨[114, 47], [98]⟩] :
          List FileVisit).filterMap (acceptedName [114, 47])).reverse ++ []
    ∧ seekLoop (flat_archive idCodec sampleL) [97] 3 2
      = some (readHeaderAt (flat_archive idCodec sampleL) (3 + 0 * 78)) :=
  ⟨pack_list_reverse_order.1 [114, 47] [⟨[114, 47], [97]⟩, ⟨[114, 47], [98]⟩] [],
   pack_list_reverse_order.2 (flat_archive idCodec sampleL) [97] 3 2 0
     (by decide) (fun j hj => absurd hj (by omega)) (by decide)⟩

/-- Claim C2 counterexample: a walk that yields names `a` then `b` builds
the pack list (and hence the entry table) as `b, a` — not the claimed
traversal insertion order `a, b`. -/
theorem traversal_order_counterexample :
    (build_pack_list [114, 47] [⟨[114, 47], [97]⟩, ⟨[114, 47], [98]⟩] []).1
      = [[98], [97]]
    ∧ (build_pack_list [114, 47] [⟨[114, 47], [97]⟩, ⟨[114, 47], [98]⟩] []).1
      ≠ [[97], [98]] := by
  decide

/-- Claim C5: a file whose derived relative name does not fit the 64-byte
field with its terminator (name of 64 bytes or more) is skipped with the
too-long log event while the walk continues over the remaining files, and
a name of up to 63 bytes is accepted into the pack list. -/
theorem name_length_gate :
    (∀ (root : List Nat) (v : FileVisit) (rest : List FileVisit)
        (acc : List (List Nat)) (rel : List Nat),
      derive_name root (normalize_path_separators (v.dirname ++ v.fname))
        = some rel →
      rel.length + 1 > 64 →
      build_pack_list root (v :: rest) acc
        = ((build_pack_list root rest acc).1,
            BuildEvent.nameTooLong (normalize_path_separators (v.dirname ++ v.fname))
              :: (build_pack_list root rest acc).2))
    ∧ (∀ (root : List Nat) (v : FileVisit) (rest : List FileVisit)
        (acc : List (List Nat)) (rel : List Nat),
      derive_name root (normalize_path_separators (v.dirname ++ v.fname))
        = some rel →
      rel.length ≤ 63 →
      rel ∈ (build_pack_list root (v :: rest) acc).1) := by
  constructor
  · intro root v rest acc rel hd hl
    have hcb : _recurse_dir_callback root acc v = (acc,
        [BuildEvent.nameTooLong (normalize_path_separators (v.dirname ++ v.fname))]) := by
      unfold _recurse_dir_callback
      simp only []
      rw [hd]
      simp only []
      rw [if_pos hl]
    rw [build_pack_list_cons, hcb]
    rfl
  · intro root v rest acc rel hd hl
    have hcb : _recurse_dir_callback root acc v = (rel :: acc, []) := by
      unfold _recurse_dir_callback
      simp only []
      rw [hd]
      simp only []
      rw [if_neg (by omega : ¬ rel.length + 1 > 64)]
    rw [build_pack_list_cons, hcb]
    exact mem_build_pack_list_acc root rest (rel :: acc) rel (List.mem_cons_self rel acc)

/-- Claim C5 witness: a 64-byte name is skipped with the log event while
an empty remaining walk is unaffected, and a 63-byte name is packed. -/
theorem name_length_gate_witness :
    build_pack_list [114, 47] [⟨[114, 47], List.replicate 64 97⟩] []
      = ((build_pack_list [114, 47] [] []).1,
          BuildEvent.nameTooLong
            (normalize_path_separators ([114, 47] ++ List.replicate 64 97))
            :: (build_pack_list [114, 47] [] []).2)
    ∧ List.replicate 63 97
      ∈ (build_pack_list [114, 47] [⟨[114, 47], List.replicate 63 97⟩] []).1 :=
  ⟨name_length_gate.1 [114, 47] ⟨[114, 47], List.replicate 64 97⟩ [] []
      (List.replicate 64 97) (by decide) (by decide),
   name_length_gate.2 [114, 47] ⟨[114, 47], List.replicate 63 97⟩ [] []
      (List.replicate 63 97) (by decide) (by decide)⟩

/-- Claim C4: the writer compresses an entry exactly when its raw size
strictly exceeds 256 bytes.  An entry of at most 256 bytes is stored
verbatim with compression kind none and stored size equal to uncompressed
size; an entry of 257 bytes or more carries compression kind zlib-deflate
and its payload is the deflate output. -/
theorem compression_threshold (c : Codec) (L : List PackNode) (t : Nat)
    (ht : t < L.length)
    (hfit : (flat_archive c L).length < 4294967296)
    (hfit2 : (L.getD t dfltNode).content.length < 4294967296) :
    (byteAt (yep_pack_directory_bytes c L) (3 + t * 78 + 72) = YEP_COMPRESSION_ZLIB
      ↔ 256 < (L.getD t dfltNode).content.length)
    ∧ ((L.getD t dfltNode).content.length ≤ 256 →
        byteAt (yep_pack_directory_bytes c L) (3 + t * 78 + 72) = YEP_COMPRESSION_NONE
        ∧ rdU32 (yep_pack_directory_bytes c L) (3 + t * 78 + 68)
            = (L.getD t dfltNode).content.length
        ∧ rdU32 (yep_pack_directory_bytes c L) (3 + t * 78 + 73)
            = (L.getD t dfltNode).content.length
        ∧ byteRange (yep_pack_directory_bytes c L)
            (rdU32 (yep_pack_directory_bytes c L) (3 + t * 78 + 64))
            (rdU32 (yep_pack_directory_bytes c L) (3 + t * 78 + 68))
          = (L.getD t dfltNode).content)
    ∧ (256 < (L.getD t dfltNode).content.length →
        byteRange (yep_pack_directory_bytes c L)
            (rdU32 (yep_pack_directory_bytes c L) (3 + t * 78 + 64))
            (rdU32 (yep_pack_directory_bytes c L) (3 + t * 78 + 68))
          = compress_data c (L.getD t dfltNode).content) := by
  rw [yep_pack_directory_eq_flat]
  have h72 := congrArg HeaderInfo.compression_type (readHeaderAt_archive c L t ht)
  have h64 := congrArg HeaderInfo.offset (readHeaderAt_archive c L t ht)
  have h68 := congrArg HeaderInfo.size (readHeaderAt_archive c L t ht)
  have h73 := congrArg HeaderInfo.uncompressed_size (readHeaderAt_archive c L t ht)
  simp only [readHeaderAt] at h72 h64 h68 h73
  have hoff_le := entryOffset_add_le c L t ht
  have hoffmod : entryOffset c L t % 4294967296 = entryOffset c L t :=
    Nat.mod_eq_of_lt (by omega)
  have hszmod : (storedData c (L.getD t dfltNode).content).length % 4294967296
      = (storedData c (L.getD t dfltNode).content).length :=
    Nat.mod_eq_of_lt (by omega)
  have husmod : (L.getD t dfltNode).content.length % 4294967296
      = (L.getD t dfltNode).content.length := Nat.mod_eq_of_lt (by omega)
  rw [hoffmod] at h64
  rw [hszmod] at h68
  rw [husmod] at h73
  have hpay := byteRange_archive_payload c L t ht
  refine ⟨?_, ?_, ?_⟩
  · rw [h72]
    unfold ctypeOf
    by_cases hb : (L.getD t dfltNode).content.length > 256
    · rw [if_pos hb]
      exact ⟨fun _ => hb, fun _ => rfl⟩
    · rw [if_neg hb]
      constructor
      · intro h0
        exact absurd h0 (by decide)
      · intro h0
        exact absurd h0 hb
  · intro hle
    have hnb : ¬ (L.getD t dfltNode).content.length > 256 := by omega
    have hst : storedData c (L.getD t dfltNode).content
        = (L.getD t dfltNode).content := by
      unfold storedData
      rw [if_neg hnb]
    refine ⟨?_, ?_, ?_, ?_⟩
    · rw [h72]
      unfold ctypeOf
      rw [if_neg hnb]
    · rw [h68, hst]
    · rw [h73]
    · rw [h64, h68, hst]
      rw [hst] at hpay
      exact hpay
  · intro hgt
    have hst : storedData c (L.getD t dfltNode).content
        = compress_data c (L.getD t dfltNode).content := by
      unfold storedData
      rw [if_pos hgt]
    rw [h64, h68, hst]
    rw [hst] at hpay
    exact hpay

set_option maxRecDepth 100000 in
/-- Claim C4 witness: in the sample archive the 300-byte entry carries
the deflate kind byte. -/
theorem compression_threshold_witness :
    byteAt (yep_pack_directory_bytes idCodec sampleL) (3 + 1 * 78 + 72)
      = YEP_COMPRESSION_ZLIB :=
  (compression_threshold idCodec sampleL 1 (by decide) (by decide)
    (by decide)).1.mpr (by decide)

/-- Claim C10: extraction of an uncompressed entry returns a buffer of
stored-size-plus-one bytes whose final byte, at the index equal to the
reported size, is the NUL terminator the reported size excludes; a
deflate entry is returned as exactly the uncompressed-size decompressed
bytes with no terminator appended. -/
theorem extract_buffer_layout (c : Codec) (fs : String → Option (List Nat))
    (file : String) (bytes handle : List Nat) (h : HeaderInfo)
    (hfs : fs file = some bytes)
    (hver : byteAt bytes 0 = YEP_CURRENT_FORMAT_VERSION)
    (hseek : _yep_seek_header bytes (rdU16 bytes 1) handle = some h)
    (hbound : h.offset + h.size ≤ bytes.length) :
    (h.compression_type = YEP_COMPRESSION_NONE →
      (yep_extract_data c fs initSys initReader file handle).1
          = some (byteRange bytes h.offset h.size ++ [0], h.size)
      ∧ (byteRange bytes h.offset h.size ++ [0]).length = h.size + 1
      ∧ byteAt (byteRange bytes h.offset h.size ++ [0]) h.size = 0)
    ∧ (∀ out, h.compression_type = YEP_COMPRESSION_ZLIB →
        decompress_data c (byteRange bytes h.offset h.size) h.uncompressed_size
            = DecompressResult.ok out →
        (yep_extract_data c fs initSys initReader file handle).1
            = some (out, h.uncompressed_size)
        ∧ out.length = h.uncompressed_size) := by
  have hopen := _yep_open_file_fresh fs initSys file bytes hfs hver
  have hlenraw : (byteRange bytes h.offset h.size).length = h.size := by
    simp [byteRange]
    omega
  unfold yep_extract_data
  rw [hopen]
  simp only [OpenR.toBool]
  rw [if_neg (by simp)]
  rw [hseek]
  simp only []
  constructor
  · intro hct
    have hctne : ¬ h.compression_type = YEP_COMPRESSION_ZLIB := by
      rw [hct]
      decide
    rw [if_neg hctne, if_pos hct]
    refine ⟨rfl, ?_, ?_⟩
    · simp [hlenraw]
    · exact byteAt_at_length _ 0 [] h.size hlenraw
  · intro out hct hdec
    rw [if_pos hct, hdec]
    exact ⟨rfl, (decompress_data_ok c _ _ out hdec).2⟩

set_option maxRecDepth 100000 in
/-- Claim C10 witness: the 2-byte uncompressed sample entry comes back as
3 bytes whose last byte is NUL, reported size 2. -/
theorem extract_buffer_layout_witness :
    (yep_extract_data idCodec sampleFs initSys initReader "out.yep" [97]).1
      = some (byteRange (flat_archive idCodec sampleL) 159 2 ++ [0], 2) :=
  ((extract_buffer_layout idCodec sampleFs "out.yep"
      (flat_archive idCodec sampleL) [97]
      ⟨name64 [97], 159, 2, 0, 2, 0⟩
      (by decide) (by decide) (by decide) (by decide)).1 (by decide)).1

set_option maxRecDepth 100000 in
/-- Claim C1 witness: the sample two-file archive round-trips. -/
theorem roundtrip_extract_witness :
    Codec.Lossless idCodec
    ∧ ∃ data : List Nat,
        (yep_extract_data idCodec sampleFs initSys initReader "out.yep" [97]).1
          = some (data, 2)
        ∧ data.take 2 = [10, 20] := by
  constructor
  · intro x
    exact ⟨rfl, by show x.length ≤ x.length + x.length / 10 + 12; omega⟩
  · exact roundtrip_extract idCodec
      (fun x => ⟨rfl, by show x.length ≤ x.length + x.length / 10 + 12; omega⟩) sampleL
      (by decide) (by decide) (by decide) (by decide) (by decide) (by decide)
      "out.yep" ⟨[97], [10, 20]⟩ (by decide)

theorem extract_count_zero (c : Codec) (fs : String → Option (List Nat))
    (file : String) (bytes handle : List Nat) (hfs : fs file = some bytes)
    (hver : byteAt bytes 0 = YEP_CURRENT_FORMAT_VERSION)
    (hcount : rdU16 bytes 1 = 0) :
    (yep_extract_data c fs initSys initReader file handle).1 = none := by
  have hopen := _yep_open_file_fresh fs initSys file bytes hfs hver
  unfold yep_extract_data
  rw [hopen]
  simp only [OpenR.toBool]
  rw [if_neg (by simp)]
  rw [hcount]
  rfl

set_option maxRecDepth 100000 in
/-- Claim C1 counterexample: the claim fails as stated for a set of 65536
files with unique NUL-free names of 3 bytes — the 16-bit entry-count
field wraps to 0, so extracting any of the packed names returns the null
result instead of the file's bytes. -/
theorem roundtrip_counterexample :
    (bigL.map PackNode.name).Nodup
    ∧ (∀ nd ∈ bigL, nd.name.length ≤ 63 ∧ ¬ 0 ∈ nd.name)
    ∧ (yep_extract_data idCodec bigFs initSys initReader "big.yep"
        (bigName 0)).1 = none := by
  refine ⟨?_, ?_, ?_⟩
  · have hmap : bigL.map PackNode.name = (List.range 65536).map bigName := by
      unfold bigL
      rw [List.map_map]
      apply List.map_congr_left
      intro a _
      rfl
    rw [hmap]
    apply List.Nodup.map_on ?_ (List.nodup_range 65536)
    intro x hx y hy heq
    rw [List.mem_range] at hx hy
    simp only [bigName, List.cons.injEq, and_true] at heq
    omega
  · intro nd hnd
    unfold bigL at hnd
    simp only [List.mem_map, List.mem_range] at hnd
    obtain ⟨i, hi, rfl⟩ := hnd
    refine ⟨by simp [bigName], ?_⟩
    simp only [bigName, List.mem_cons, List.not_mem_nil, or_false]
    omega
  · have hA : yep_pack_directory_bytes idCodec bigL = flat_archive idCodec bigL :=
      yep_pack_directory_eq_flat idCodec bigL
    have hfs : bigFs "big.yep" = some (flat_archive idCodec bigL) := by
      unfold bigFs
      rw [if_pos rfl, hA]
    have hver : byteAt (flat_archive idCodec bigL) 0
        = YEP_CURRENT_FORMAT_VERSION := by
      rw [flat_archive_version]
      decide
    have hcount : rdU16 (flat_archive idCodec bigL) 1 = 0 := by
      rw [flat_archive_count]
      have hlen : bigL.length = 65536 := by
        unfold bigL
        rw [List.length_map, List.length_range]
      rw [hlen]
    exact extract_count_zero idCodec bigFs "big.yep" (flat_archive idCodec bigL)
      (bigName 0) hfs hver hcount

end Yep
